import Mathlib

/-!
Shallow embedding of `src/code/src/sparse-matrix.py` (class `SparseMatrix`).

The Python class stores the nonzero elements of a matrix in a dict keyed by
`(row, col)` pairs.  We model the dict as an association list with unique
keys (`nodupKeys`), the dict-representation invariant that every Python dict
satisfies; dict reads/writes/deletes are the functions `dictGet`, `dictSet`,
`dictDel`, `dictContains` below, each mirroring the dict operation used by
the source (`d.get(k, 0)`, `d[k] = v`, `del d[k]`, `k in d`).

Python exceptions are modelled by the `PyExc` type (the source raises only
`ValueError`s itself, and the `except Exception` handler in `load_from_file`
can additionally observe the `IndexError` coming from `lines[0]` / `lines[1]`
and the `ValueError` coming from `int(...)`).  Methods that can raise return
`Except PyExc _`; methods that cannot raise return plain values.  The Python
methods never assign to `self.data`, `self.rows`, `self.cols` or to any
attribute of `other` — the only object mutated by `add`/`subtract`/`multiply`
is the freshly allocated `result` — so the pure functional translation below
is faithful: operands are left untouched by construction.

String operations (`str.strip`, `str.split`, `int(...)`, slicing,
`startswith`/`endswith`) are modelled at the character-list level
(`String.data`), following Python semantics: `int` tolerates surrounding
whitespace and an optional sign and requires at least one decimal digit.
-/

/-- Python exception values observed by the program: the kind (exception
class) together with the message text. -/
inductive PyExc where
  | valueError (msg : String)
  | indexError (msg : String)
deriving DecidableEq, Repr

/-- `str(e)` for the exceptions above: the message text. -/
def PyExc.message : PyExc → String
  | .valueError m => m
  | .indexError m => m

/-- Whitespace as recognised by `str.strip` (the forms occurring in text lines). -/
def isSpaceChar (c : Char) : Bool :=
  c == ' ' || c == '\t' || c == '\n' || c == '\r'

/-- Python `s.strip()` on a character list. -/
def pyStrip (l : List Char) : List Char :=
  ((l.dropWhile isSpaceChar).reverse.dropWhile isSpaceChar).reverse

/-- Python `s.split(sep)` for a single-character separator: always returns a
nonempty list of (possibly empty) fragments. -/
def pySplit (sep : Char) : List Char → List (List Char)
  | [] => [[]]
  | c :: rest =>
    match pySplit sep rest with
    | [] => [[]]
    | g :: gs => if c = sep then [] :: g :: gs else (c :: g) :: gs

/-- Value of a list of decimal digits. -/
def digitsToNat (l : List Char) : Nat :=
  l.foldl (fun acc c => 10 * acc + (c.toNat - 48)) 0

/-- Python `int(s)` on a character list: strips whitespace, accepts an
optional leading sign followed by at least one decimal digit; `none` models
the `ValueError` raised on any other input. -/
def pyInt? (l0 : List Char) : Option Int :=
  let l := pyStrip l0
  match l with
  | '-' :: rest =>
    if !rest.isEmpty && rest.all Char.isDigit then some (-(digitsToNat rest : Int)) else none
  | '+' :: rest =>
    if !rest.isEmpty && rest.all Char.isDigit then some ((digitsToNat rest : Int)) else none
  | _ =>
    if !l.isEmpty && l.all Char.isDigit then some ((digitsToNat l : Int)) else none

/-- `line.startswith(c)` for a single character. -/
def startsWithChar (l : List Char) (c : Char) : Bool :=
  match l with
  | [] => false
  | a :: _ => a = c

/-- `line.endswith(c)` for a single character. -/
def endsWithChar (l : List Char) (c : Char) : Bool :=
  startsWithChar l.reverse c

/-- The dict `self.data`: association list from `(row, col)` to value. -/
abbrev Dict := List ((Int × Int) × Int)

/-- Python `d.get(key, 0)`. -/
def dictGet : Dict → (Int × Int) → Int
  | [], _ => 0
  | (k, v) :: rest, key => if k = key then v else dictGet rest key

/-- Python `key in d`. -/
def dictContains : Dict → (Int × Int) → Bool
  | [], _ => false
  | (k, _) :: rest, key => if k = key then true else dictContains rest key

/-- Python `d[key] = v`: overwrite the entry in place if the key is present,
otherwise append it. -/
def dictSet : Dict → (Int × Int) → Int → Dict
  | [], key, v => [(key, v)]
  | (k, w) :: rest, key, v =>
    if k = key then (key, v) :: rest else (k, w) :: dictSet rest key v

/-- Python `del d[key]`: remove the entry holding the key. -/
def dictDel : Dict → (Int × Int) → Dict
  | [], _ => []
  | (k, w) :: rest, key =>
    if k = key then rest else (k, w) :: dictDel rest key

/-- The dict representation invariant: keys of the association list are
pairwise distinct (every Python dict satisfies this). -/
abbrev nodupKeys (d : Dict) : Prop := (d.map Prod.fst).Nodup

/-- The `SparseMatrix` class: `self.data`, `self.rows`, `self.cols`. -/
structure SparseMatrix where
  data : Dict
  rows : Int
  cols : Int
deriving DecidableEq, Repr

/-- `get_element`: `return self.data.get((row, col), 0)`. -/
def SparseMatrix.get_element (self : SparseMatrix) (row col : Int) : Int :=
  dictGet self.data (row, col)

/-- `set_element`: store the value when nonzero, delete any existing entry
when the value is zero. -/
def SparseMatrix.set_element (self : SparseMatrix) (row col value : Int) : SparseMatrix :=
  if value ≠ 0 then { self with data := dictSet self.data (row, col) value }
  else if dictContains self.data (row, col) then
    { self with data := dictDel self.data (row, col) }
  else self

/-- Python `range(n)` for an integer bound: `[0, 1, ..., n-1]`, empty when
`n ≤ 0`. -/
def intRange (n : Int) : List Int :=
  (List.range n.toNat).map Int.ofNat

/-- `add`: dimension check, then the two sweeps of the source — every entry
of `self` contributes `v + other.get_element(r, c)`, and every entry of
`other` whose key is absent from `self` contributes `v`. -/
def SparseMatrix.add (self other : SparseMatrix) : Except PyExc SparseMatrix :=
  if self.rows ≠ other.rows ∨ self.cols ≠ other.cols then
    Except.error (PyExc.valueError "Matrix dimensions must match for addition")
  else
    let result : SparseMatrix := ⟨[], self.rows, self.cols⟩
    let result := self.data.foldl
      (fun res p => res.set_element p.1.1 p.1.2 (p.2 + other.get_element p.1.1 p.1.2)) result
    let result := other.data.foldl
      (fun res p =>
        if dictContains self.data p.1 then res
        else res.set_element p.1.1 p.1.2 p.2) result
    Except.ok result

/-- `subtract`: symmetric to `add` with the second operand negated. -/
def SparseMatrix.subtract (self other : SparseMatrix) : Except PyExc SparseMatrix :=
  if self.rows ≠ other.rows ∨ self.cols ≠ other.cols then
    Except.error (PyExc.valueError "Matrix dimensions must match for subtraction")
  else
    let result : SparseMatrix := ⟨[], self.rows, self.cols⟩
    let result := self.data.foldl
      (fun res p => res.set_element p.1.1 p.1.2 (p.2 - other.get_element p.1.1 p.1.2)) result
    let result := other.data.foldl
      (fun res p =>
        if dictContains self.data p.1 then res
        else res.set_element p.1.1 p.1.2 (-p.2)) result
    Except.ok result

/-- `multiply`: dimension check, then for every stored entry `(r1, c1) ↦ v1`
of `self` and every column `c2` in `range(other.cols)`, read
`v2 = other.get_element(c1, c2)` and, when nonzero, accumulate
`result[(r1, c2)] += v1 * v2` via get/set on the result. -/
def SparseMatrix.multiply (self other : SparseMatrix) : Except PyExc SparseMatrix :=
  if self.cols ≠ other.rows then
    Except.error (PyExc.valueError "Matrix dimensions must be compatible for multiplication")
  else
    let result : SparseMatrix := ⟨[], self.rows, other.cols⟩
    let result := self.data.foldl
      (fun res p =>
        (intRange other.cols).foldl
          (fun res c2 =>
            let v2 := other.get_element p.1.2 c2
            if v2 ≠ 0 then
              res.set_element p.1.1 c2 (res.get_element p.1.1 c2 + p.2 * v2)
            else res) res) result
    Except.ok result

/-- Comparison used by Python `sorted(self.data.items())`: lexicographic on
`((row, col), value)`. -/
def entryLe (a b : (Int × Int) × Int) : Bool :=
  if a.1.1 < b.1.1 then true
  else if b.1.1 < a.1.1 then false
  else if a.1.2 < b.1.2 then true
  else if b.1.2 < a.1.2 then false
  else decide (a.2 ≤ b.2)

/-- Insertion into a sorted list (stable insertion sort step). -/
def insertLe (x : (Int × Int) × Int) : List ((Int × Int) × Int) → List ((Int × Int) × Int)
  | [] => [x]
  | y :: ys => if entryLe x y then x :: y :: ys else y :: insertLe x ys

/-- `sorted(...)` on the entry list. -/
def sortEntries : List ((Int × Int) × Int) → List ((Int × Int) × Int)
  | [] => []
  | x :: xs => insertLe x (sortEntries xs)

/-- `display`: one output line per stored entry, sorted by coordinate, each
rendered exactly as the f-string of the source prints it. -/
def SparseMatrix.display (self : SparseMatrix) : List String :=
  (sortEntries self.data).map
    (fun p => "(" ++ toString p.1.1 ++ ", " ++ toString p.1.2 ++ ", " ++ toString p.2 ++ ")")

/-- `lines[i]`: `IndexError` on an out-of-range index. -/
def listIndex (lines : List String) (i : Nat) : Except PyExc String :=
  match lines[i]? with
  | some s => Except.ok s
  | none => Except.error (PyExc.indexError "list index out of range")

/-- `int(s)` as an exception-raising operation. -/
def parseInt (l : List Char) : Except PyExc Int :=
  match pyInt? l with
  | some n => Except.ok n
  | none =>
    Except.error (PyExc.valueError
      ("invalid literal for int() with base 10: '" ++ String.mk l ++ "'"))

/-- `int(lines[i].strip().split('=')[1])`: the dimension declarations on the
first two lines.  The key text before the first `=` is never inspected. -/
def parseDimLine (lines : List String) (i : Nat) : Except PyExc Int := do
  let s ← listIndex lines i
  match (pySplit '=' (pyStrip s.data))[1]? with
  | some seg => parseInt seg
  | none => Except.error (PyExc.indexError "list index out of range")

/-- The triple loop of `load_from_file` over `lines[2:]`: skip blank lines,
demand the `(`...`)` wrapping and exactly three comma-separated fragments,
convert each fragment with `int`, and store `data[(r, c)] = v`. -/
def parseTriples : List String → Dict → Except PyExc Dict
  | [], d => Except.ok d
  | s :: rest, d =>
    let line := pyStrip s.data
    if line.isEmpty then parseTriples rest d
    else if !(startsWithChar line '(' && endsWithChar line ')') then
      Except.error (PyExc.valueError "Input file has wrong format")
    else
      match pySplit ',' ((line.drop 1).dropLast) with
      | [p0, p1, p2] => do
        let r ← parseInt p0
        let c ← parseInt p1
        let v ← parseInt p2
        parseTriples rest (dictSet d (r, c) v)
      | _ => Except.error (PyExc.valueError "Input file has wrong format")

/-- The `try` body of `load_from_file`: parse the two dimension
declarations, then the triples. -/
def loadBody (lines : List String) : Except PyExc (Dict × Int × Int) := do
  let rows ← parseDimLine lines 0
  let cols ← parseDimLine lines 1
  let d ← parseTriples (lines.drop 2) []
  Except.ok (d, rows, cols)

/-- `load_from_file` on the list of lines of the file: any exception
escaping the `try` body is caught by `except Exception as e` and re-raised
as `ValueError("Error reading file: " + str(e))`. -/
def load_from_file (lines : List String) : Except PyExc (Dict × Int × Int) :=
  match loadBody lines with
  | Except.ok x => Except.ok x
  | Except.error e =>
    Except.error (PyExc.valueError ("Error reading file: " ++ e.message))

/-- `SparseMatrix(matrix_file_path=...)`: construction from a serialized
source; a propagated exception yields no instance. -/
def fromFile (lines : List String) : Except PyExc SparseMatrix :=
  (load_from_file lines).map (fun x => ⟨x.1, x.2.1, x.2.2⟩)

/-! ### Dictionary lemmas -/

theorem dictGet_dictSet_self (d : Dict) (k : Int × Int) (v : Int) :
    dictGet (dictSet d k v) k = v := by
  induction d with
  | nil => simp [dictSet, dictGet]
  | cons p rest ih =>
    by_cases h : p.1 = k
    · simp [dictSet, dictGet, h]
    · simp [dictSet, dictGet, h, ih]

theorem dictGet_dictSet_ne (d : Dict) (k : Int × Int) (v : Int) (k' : Int × Int)
    (h : k' ≠ k) : dictGet (dictSet d k v) k' = dictGet d k' := by
  have h' : k ≠ k' := Ne.symm h
  induction d with
  | nil => simp [dictSet, dictGet, h']
  | cons p rest ih =>
    obtain ⟨pk, pv⟩ := p
    by_cases hp : pk = k
    · subst hp
      simp [dictSet, dictGet, h']
    · simp [dictSet, dictGet, hp, ih]

theorem dictGet_dictDel_ne (d : Dict) (k : Int × Int) (k' : Int × Int)
    (h : k' ≠ k) : dictGet (dictDel d k) k' = dictGet d k' := by
  induction d with
  | nil => simp [dictDel]
  | cons p rest ih =>
    obtain ⟨pk, pv⟩ := p
    by_cases hp : pk = k
    · subst hp
      simp [dictDel, dictGet, Ne.symm h]
    · simp [dictDel, dictGet, hp, ih]

theorem dictContains_iff (d : Dict) (k : Int × Int) :
    dictContains d k = true ↔ k ∈ d.map Prod.fst := by
  induction d with
  | nil => simp [dictContains]
  | cons p rest ih =>
    obtain ⟨pk, pv⟩ := p
    by_cases hp : pk = k
    · simp [dictContains, hp]
    · simp [dictContains, hp, ih, Ne.symm hp]

theorem dictGet_of_not_contains (d : Dict) (k : Int × Int)
    (h : dictContains d k = false) : dictGet d k = 0 := by
  induction d with
  | nil => simp [dictGet]
  | cons p rest ih =>
    obtain ⟨pk, pv⟩ := p
    by_cases hp : pk = k
    · simp [dictContains, hp] at h
    · simp only [dictContains, if_neg hp] at h
      simp [dictGet, hp, ih h]

theorem dictContains_dictSet_self (d : Dict) (k : Int × Int) (v : Int) :
    dictContains (dictSet d k v) k = true := by
  induction d with
  | nil => simp [dictSet, dictContains]
  | cons p rest ih =>
    obtain ⟨pk, pv⟩ := p
    by_cases hp : pk = k
    · simp [dictSet, dictContains, hp]
    · simp [dictSet, dictContains, hp, ih]

theorem mem_keys_dictSet (d : Dict) (k : Int × Int) (v : Int) (k' : Int × Int) :
    k' ∈ (dictSet d k v).map Prod.fst ↔ k' = k ∨ k' ∈ d.map Prod.fst := by
  induction d with
  | nil => simp [dictSet]
  | cons p rest ih =>
    obtain ⟨pk, pv⟩ := p
    by_cases hp : pk = k
    · subst hp
      rw [show dictSet ((pk, pv) :: rest) pk v = (pk, v) :: rest from by simp [dictSet]]
      simp only [List.map_cons, List.mem_cons]
      tauto
    · rw [show dictSet ((pk, pv) :: rest) k v = (pk, pv) :: dictSet rest k v from by
        simp [dictSet, hp]]
      simp only [List.map_cons, List.mem_cons, ih]
      tauto

theorem nodupKeys_dictSet (d : Dict) (k : Int × Int) (v : Int)
    (h : nodupKeys d) : nodupKeys (dictSet d k v) := by
  induction d with
  | nil => simp [dictSet, nodupKeys]
  | cons p rest ih =>
    obtain ⟨pk, pv⟩ := p
    simp only [nodupKeys, List.map_cons, List.nodup_cons] at h
    by_cases hp : pk = k
    · subst hp
      have hset : dictSet ((pk, pv) :: rest) pk v = (pk, v) :: rest := by simp [dictSet]
      rw [hset]
      simp only [nodupKeys, List.map_cons, List.nodup_cons]
      exact ⟨h.1, h.2⟩
    · have hset : dictSet ((pk, pv) :: rest) k v = (pk, pv) :: dictSet rest k v := by
        simp [dictSet, hp]
      rw [hset]
      simp only [nodupKeys, List.map_cons, List.nodup_cons]
      refine ⟨fun hc => ?_, ih h.2⟩
      rcases (mem_keys_dictSet rest k v pk).mp hc with h1 | h1
      · exact hp h1
      · exact h.1 h1

theorem dictDel_sublist (d : Dict) (k : Int × Int) : (dictDel d k).Sublist d := by
  induction d with
  | nil => simp [dictDel]
  | cons p rest ih =>
    obtain ⟨pk, pv⟩ := p
    by_cases hp : pk = k
    · rw [show dictDel ((pk, pv) :: rest) k = rest from by simp [dictDel, hp]]
      exact List.sublist_cons_self (pk, pv) rest
    · simpa [dictDel, hp] using List.Sublist.cons₂ (pk, pv) ih

theorem nodupKeys_dictDel (d : Dict) (k : Int × Int)
    (h : nodupKeys d) : nodupKeys (dictDel d k) := by
  exact List.Nodup.sublist (List.Sublist.map Prod.fst (dictDel_sublist d k)) h

theorem dictContains_dictDel_self (d : Dict) (k : Int × Int)
    (h : nodupKeys d) : dictContains (dictDel d k) k = false := by
  induction d with
  | nil => simp [dictDel, dictContains]
  | cons p rest ih =>
    obtain ⟨pk, pv⟩ := p
    simp only [nodupKeys, List.map_cons, List.nodup_cons] at h
    by_cases hp : pk = k
    · subst hp
      have hdel : dictDel ((pk, pv) :: rest) pk = rest := by simp [dictDel]
      rw [hdel]
      cases hcon : dictContains rest pk
      · rfl
      · exact absurd ((dictContains_iff rest pk).mp hcon) h.1
    · simp [dictDel, dictContains, hp, ih h.2]

/-! ### get/set laws for SparseMatrix -/

theorem SparseMatrix.rows_set_element (m : SparseMatrix) (r c v : Int) :
    (m.set_element r c v).rows = m.rows := by
  unfold SparseMatrix.set_element
  by_cases hv : v ≠ 0
  · simp [hv]
  · by_cases hc2 : dictContains m.data (r, c) <;> simp [hv, hc2]

theorem SparseMatrix.cols_set_element (m : SparseMatrix) (r c v : Int) :
    (m.set_element r c v).cols = m.cols := by
  unfold SparseMatrix.set_element
  by_cases hv : v ≠ 0
  · simp [hv]
  · by_cases hc2 : dictContains m.data (r, c) <;> simp [hv, hc2]

theorem SparseMatrix.nodupKeys_set_element (m : SparseMatrix) (r c v : Int)
    (hm : nodupKeys m.data) : nodupKeys (m.set_element r c v).data := by
  unfold SparseMatrix.set_element
  by_cases hv : v ≠ 0
  · simpa [hv] using nodupKeys_dictSet m.data (r, c) v hm
  · by_cases hc2 : dictContains m.data (r, c)
    · simpa [hv, hc2] using nodupKeys_dictDel m.data (r, c) hm
    · simpa [hv, hc2] using hm

/-- The central read-after-write law: `set_element` changes exactly the one
coordinate it is given (storing when the value is nonzero, deleting when it
is zero), and leaves every other coordinate's `get_element` value alone. -/
theorem SparseMatrix.get_element_set_element (m : SparseMatrix) (r c v r' c' : Int)
    (hm : nodupKeys m.data) :
    (m.set_element r c v).get_element r' c'
      = if ((r', c') : Int × Int) = (r, c) then v else m.get_element r' c' := by
  unfold SparseMatrix.set_element SparseMatrix.get_element
  by_cases hv : v ≠ 0
  · by_cases hk : ((r', c') : Int × Int) = (r, c)
    · simp only [if_pos hv, hk, if_pos rfl]
      exact dictGet_dictSet_self m.data (r, c) v
    · simp only [if_pos hv, if_neg hk]
      exact dictGet_dictSet_ne m.data (r, c) v (r', c') hk
  · push_neg at hv
    subst hv
    by_cases hc2 : dictContains m.data (r, c)
    · by_cases hk : ((r', c') : Int × Int) = (r, c)
      · simp only [ne_eq, not_true_eq_false, if_false, if_pos hc2, hk, if_pos rfl]
        exact dictGet_of_not_contains _ _ (dictContains_dictDel_self m.data (r, c) hm)
      · simp only [ne_eq, not_true_eq_false, if_false, if_pos hc2, if_neg hk]
        exact dictGet_dictDel_ne m.data (r, c) (r', c') hk
    · by_cases hk : ((r', c') : Int × Int) = (r, c)
      · have h0 : dictGet m.data (r, c) = 0 :=
          dictGet_of_not_contains m.data (r, c) (by simpa using hc2)
        simp [hk, hc2, h0]
      · simp only [ne_eq, not_true_eq_false, if_false, if_neg hc2, if_neg hk]

/-! ### Generic lemmas about folds over the fresh result matrix -/

theorem nodupKeys_foldl {α : Type} (g : SparseMatrix → α → SparseMatrix)
    (hg : ∀ res p, nodupKeys res.data → nodupKeys (g res p).data)
    (l : List α) (m : SparseMatrix) (hm : nodupKeys m.data) :
    nodupKeys (l.foldl g m).data := by
  induction l generalizing m with
  | nil => exact hm
  | cons a t ih => exact ih (g m a) (hg m a hm)

theorem rows_foldl {α : Type} (g : SparseMatrix → α → SparseMatrix)
    (hg : ∀ res p, (g res p).rows = res.rows)
    (l : List α) (m : SparseMatrix) : (l.foldl g m).rows = m.rows := by
  induction l generalizing m with
  | nil => rfl
  | cons a t ih => rw [List.foldl_cons, ih (g m a), hg m a]

theorem cols_foldl {α : Type} (g : SparseMatrix → α → SparseMatrix)
    (hg : ∀ res p, (g res p).cols = res.cols)
    (l : List α) (m : SparseMatrix) : (l.foldl g m).cols = m.cols := by
  induction l generalizing m with
  | nil => rfl
  | cons a t ih => rw [List.foldl_cons, ih (g m a), hg m a]

theorem get_foldl_frame {α : Type} (g : SparseMatrix → α → SparseMatrix) (r c : Int)
    (l : List α)
    (hg1 : ∀ res p, nodupKeys res.data → nodupKeys (g res p).data)
    (hg2 : ∀ res p, p ∈ l → nodupKeys res.data →
      (g res p).get_element r c = res.get_element r c)
    (m : SparseMatrix) (hm : nodupKeys m.data) :
    (l.foldl g m).get_element r c = m.get_element r c := by
  induction l generalizing m with
  | nil => rfl
  | cons a t ih =>
    rw [List.foldl_cons,
      ih (fun res p hp => hg2 res p (List.mem_cons_of_mem a hp)) (g m a) (hg1 m a hm),
      hg2 m a (List.mem_cons_self a t) hm]

/-- Characterization of a sweep that stores `f key value` for every entry of
the association list `l` (pass 1 of `add`/`subtract`): the final value at a
coordinate is `f` of the looked-up entry when the coordinate is a key of
`l`, and the starting matrix's value otherwise. -/
theorem get_foldl_set (f : (Int × Int) → Int → Int) (l : Dict) (m : SparseMatrix)
    (r c : Int) (hm : nodupKeys m.data) (hl : nodupKeys l) :
    (l.foldl (fun res p => res.set_element p.1.1 p.1.2 (f p.1 p.2)) m).get_element r c
      = if dictContains l (r, c) then f (r, c) (dictGet l (r, c))
        else m.get_element r c := by
  induction l generalizing m with
  | nil => simp [dictContains]
  | cons p t ih =>
    obtain ⟨pk, pv⟩ := p
    simp only [nodupKeys, List.map_cons, List.nodup_cons] at hl
    obtain ⟨hkt, hlt⟩ := hl
    have hm' : nodupKeys (m.set_element pk.1 pk.2 (f pk pv)).data :=
      m.nodupKeys_set_element pk.1 pk.2 (f pk pv) hm
    simp only [List.foldl_cons]
    by_cases hk : pk = ((r, c) : Int × Int)
    · have hct : dictContains t (r, c) = false := by
        cases hcc : dictContains t (r, c)
        · rfl
        · exact absurd ((dictContains_iff t (r, c)).mp hcc) (hk ▸ hkt)
      have hframe :
          ((t.foldl (fun res p => res.set_element p.1.1 p.1.2 (f p.1 p.2))
            (m.set_element pk.1 pk.2 (f pk pv)))).get_element r c
          = (m.set_element pk.1 pk.2 (f pk pv)).get_element r c := by
        refine get_foldl_frame _ r c t
          (fun res q hq => res.nodupKeys_set_element q.1.1 q.1.2 (f q.1 q.2) hq)
          (fun res q hq hres => ?_) _ hm'
        rw [res.get_element_set_element q.1.1 q.1.2 (f q.1 q.2) r c hres, if_neg]
        rw [Prod.mk.eta]
        intro hcontra
        exact (hk ▸ hkt) (hcontra ▸ List.mem_map_of_mem Prod.fst hq)
      rw [hframe, m.get_element_set_element pk.1 pk.2 (f pk pv) r c hm,
        if_pos (by rw [Prod.mk.eta]; exact hk.symm)]
      rw [show dictContains ((pk, pv) :: t) (r, c) = true from by simp [dictContains, hk],
        show dictGet ((pk, pv) :: t) (r, c) = pv from by simp [dictGet, hk], if_pos rfl, hk]
    · have hne : ¬(((r, c) : Int × Int) = (pk.1, pk.2)) := by
        rw [Prod.mk.eta]
        exact fun hh => hk hh.symm
      rw [ih (m.set_element pk.1 pk.2 (f pk pv)) hm' hlt,
        m.get_element_set_element pk.1 pk.2 (f pk pv) r c hm, if_neg hne,
        show dictContains ((pk, pv) :: t) (r, c) = dictContains t (r, c) from by
          simp [dictContains, hk],
        show dictGet ((pk, pv) :: t) (r, c) = dictGet t (r, c) from by
          simp [dictGet, hk]]

/-- Characterization of the second sweep of `add`/`subtract`, which skips the
entries whose key satisfies the guard `P` (membership in the first operand's
dict). -/
theorem get_foldl_set_skip (f : (Int × Int) → Int → Int) (P : (Int × Int) → Bool)
    (l : Dict) (m : SparseMatrix) (r c : Int) (hm : nodupKeys m.data) (hl : nodupKeys l) :
    (l.foldl
        (fun res p => if P p.1 then res else res.set_element p.1.1 p.1.2 (f p.1 p.2))
        m).get_element r c
      = if dictContains l (r, c) = true ∧ P (r, c) = false then f (r, c) (dictGet l (r, c))
        else m.get_element r c := by
  induction l generalizing m with
  | nil => simp [dictContains]
  | cons p t ih =>
    obtain ⟨pk, pv⟩ := p
    simp only [nodupKeys, List.map_cons, List.nodup_cons] at hl
    obtain ⟨hkt, hlt⟩ := hl
    simp only [List.foldl_cons]
    by_cases hk : pk = ((r, c) : Int × Int)
    · have hct : dictContains t (r, c) = false := by
        cases hcc : dictContains t (r, c)
        · rfl
        · exact absurd ((dictContains_iff t (r, c)).mp hcc) (hk ▸ hkt)
      have hframe : ∀ m0 : SparseMatrix, nodupKeys m0.data →
          ((t.foldl
            (fun res p => if P p.1 then res else res.set_element p.1.1 p.1.2 (f p.1 p.2))
            m0)).get_element r c = m0.get_element r c := by
        intro m0 hm0
        refine get_foldl_frame _ r c t (fun res q hq => ?_) (fun res q hq hres => ?_) _ hm0
        · by_cases hP : P q.1 = true
          · simpa [hP] using hq
          · rw [if_neg (by simp [hP])]
            exact res.nodupKeys_set_element q.1.1 q.1.2 (f q.1 q.2) hq
        · by_cases hP : P q.1 = true
          · rw [if_pos hP]
          · rw [if_neg (by simp [hP]),
              res.get_element_set_element q.1.1 q.1.2 (f q.1 q.2) r c hres, if_neg]
            rw [Prod.mk.eta]
            intro hcontra
            exact (hk ▸ hkt) (hcontra ▸ List.mem_map_of_mem Prod.fst hq)
      by_cases hP : P pk = true
      · rw [if_pos hP, hframe m hm]
        have hPrc : P (r, c) = true := hk ▸ hP
        rw [if_neg (by simp [hPrc])]
      · have hPf : P pk = false := by simpa using hP
        rw [if_neg (by simp [hPf]),
          hframe (m.set_element pk.1 pk.2 (f pk pv))
            (m.nodupKeys_set_element pk.1 pk.2 (f pk pv) hm),
          m.get_element_set_element pk.1 pk.2 (f pk pv) r c hm,
          if_pos (by rw [Prod.mk.eta]; exact hk.symm)]
        have hPrc : P (r, c) = false := hk ▸ hPf
        rw [if_pos (by
          exact ⟨by simp [dictContains, hk], hPrc⟩),
          show dictGet ((pk, pv) :: t) (r, c) = pv from by simp [dictGet, hk], hk]
    · have hcons1 : dictContains ((pk, pv) :: t) (r, c) = dictContains t (r, c) := by
        simp [dictContains, hk]
      have hcons2 : dictGet ((pk, pv) :: t) (r, c) = dictGet t (r, c) := by
        simp [dictGet, hk]
      by_cases hP : P pk = true
      · rw [if_pos hP, ih m hm hlt, hcons1, hcons2]
      · have hPf : P pk = false := by simpa using hP
        have hne : ¬(((r, c) : Int × Int) = (pk.1, pk.2)) := by
          rw [Prod.mk.eta]
          exact fun hh => hk hh.symm
        rw [if_neg (by simp [hPf]),
          ih (m.set_element pk.1 pk.2 (f pk pv))
            (m.nodupKeys_set_element pk.1 pk.2 (f pk pv) hm) hlt,
          m.get_element_set_element pk.1 pk.2 (f pk pv) r c hm,
          if_neg hne, hcons1, hcons2]

/-! ### Characterization of add and subtract -/

theorem SparseMatrix.add_eq_ok (A B : SparseMatrix)
    (hr : A.rows = B.rows) (hc : A.cols = B.cols) :
    A.add B = Except.ok
      (B.data.foldl
        (fun res p =>
          if dictContains A.data p.1 then res
          else res.set_element p.1.1 p.1.2 p.2)
        (A.data.foldl
          (fun res p => res.set_element p.1.1 p.1.2 (p.2 + B.get_element p.1.1 p.1.2))
          ⟨[], A.rows, A.cols⟩)) := by
  have hcond : ¬(A.rows ≠ B.rows ∨ A.cols ≠ B.cols) := by
    push_neg
    exact ⟨hr, hc⟩
  unfold SparseMatrix.add
  rw [if_neg hcond]

theorem SparseMatrix.subtract_eq_ok (A B : SparseMatrix)
    (hr : A.rows = B.rows) (hc : A.cols = B.cols) :
    A.subtract B = Except.ok
      (B.data.foldl
        (fun res p =>
          if dictContains A.data p.1 then res
          else res.set_element p.1.1 p.1.2 (-p.2))
        (A.data.foldl
          (fun res p => res.set_element p.1.1 p.1.2 (p.2 - B.get_element p.1.1 p.1.2))
          ⟨[], A.rows, A.cols⟩)) := by
  have hcond : ¬(A.rows ≠ B.rows ∨ A.cols ≠ B.cols) := by
    push_neg
    exact ⟨hr, hc⟩
  unfold SparseMatrix.subtract
  rw [if_neg hcond]

theorem SparseMatrix.get_element_add (A B C : SparseMatrix)
    (hA : nodupKeys A.data) (hB : nodupKeys B.data)
    (hr : A.rows = B.rows) (hc : A.cols = B.cols)
    (hok : A.add B = Except.ok C) (r c : Int) :
    C.get_element r c = A.get_element r c + B.get_element r c := by
  rw [SparseMatrix.add_eq_ok A B hr hc] at hok
  injection hok with hok
  subst hok
  have hinit : nodupKeys (SparseMatrix.mk [] A.rows A.cols).data := List.nodup_nil
  have hm1 : nodupKeys ((A.data.foldl
      (fun res p => res.set_element p.1.1 p.1.2 (p.2 + B.get_element p.1.1 p.1.2))
      (⟨[], A.rows, A.cols⟩ : SparseMatrix))).data :=
    nodupKeys_foldl _
      (fun (res : SparseMatrix) (p : (Int × Int) × Int) hres =>
        SparseMatrix.nodupKeys_set_element res p.1.1 p.1.2 _ hres)
      A.data _ hinit
  have h1 : ((A.data.foldl
      (fun res p => res.set_element p.1.1 p.1.2 (p.2 + B.get_element p.1.1 p.1.2))
      ⟨[], A.rows, A.cols⟩) : SparseMatrix).get_element r c
      = if dictContains A.data (r, c) = true
        then dictGet A.data (r, c) + B.get_element r c else 0 :=
    get_foldl_set (fun k v => v + B.get_element k.1 k.2) A.data ⟨[], A.rows, A.cols⟩ r c
      hinit hA
  have h2 : ((B.data.foldl
      (fun res p =>
        if dictContains A.data p.1 then res
        else res.set_element p.1.1 p.1.2 p.2)
      (A.data.foldl
        (fun res p => res.set_element p.1.1 p.1.2 (p.2 + B.get_element p.1.1 p.1.2))
        ⟨[], A.rows, A.cols⟩)) : SparseMatrix).get_element r c
      = if dictContains B.data (r, c) = true ∧ dictContains A.data (r, c) = false
        then dictGet B.data (r, c)
        else ((A.data.foldl
          (fun res p => res.set_element p.1.1 p.1.2 (p.2 + B.get_element p.1.1 p.1.2))
          ⟨[], A.rows, A.cols⟩) : SparseMatrix).get_element r c :=
    get_foldl_set_skip (fun _ v => v) (fun k => dictContains A.data k) B.data _ r c hm1 hB
  rw [h2, h1]
  by_cases hca : dictContains A.data (r, c) = true
  · rw [if_neg (by simp [hca]), if_pos hca]
    rfl
  · have hcaf : dictContains A.data (r, c) = false := by simpa using hca
    have hA0 : A.get_element r c = 0 := dictGet_of_not_contains A.data (r, c) hcaf
    by_cases hcb : dictContains B.data (r, c) = true
    · rw [if_pos ⟨hcb, hcaf⟩, hA0, zero_add]
      rfl
    · have hcbf : dictContains B.data (r, c) = false := by simpa using hcb
      have hB0 : B.get_element r c = 0 := dictGet_of_not_contains B.data (r, c) hcbf
      rw [if_neg (by simp [hcbf]), if_neg hca, hA0, hB0]
      simp

theorem SparseMatrix.get_element_subtract (A B C : SparseMatrix)
    (hA : nodupKeys A.data) (hB : nodupKeys B.data)
    (hr : A.rows = B.rows) (hc : A.cols = B.cols)
    (hok : A.subtract B = Except.ok C) (r c : Int) :
    C.get_element r c = A.get_element r c - B.get_element r c := by
  rw [SparseMatrix.subtract_eq_ok A B hr hc] at hok
  injection hok with hok
  subst hok
  have hinit : nodupKeys (SparseMatrix.mk [] A.rows A.cols).data := List.nodup_nil
  have hm1 : nodupKeys ((A.data.foldl
      (fun res p => res.set_element p.1.1 p.1.2 (p.2 - B.get_element p.1.1 p.1.2))
      (⟨[], A.rows, A.cols⟩ : SparseMatrix))).data :=
    nodupKeys_foldl _
      (fun (res : SparseMatrix) (p : (Int × Int) × Int) hres =>
        SparseMatrix.nodupKeys_set_element res p.1.1 p.1.2 _ hres)
      A.data _ hinit
  have h1 : ((A.data.foldl
      (fun res p => res.set_element p.1.1 p.1.2 (p.2 - B.get_element p.1.1 p.1.2))
      ⟨[], A.rows, A.cols⟩) : SparseMatrix).get_element r c
      = if dictContains A.data (r, c) = true
        then dictGet A.data (r, c) - B.get_element r c else 0 :=
    get_foldl_set (fun k v => v - B.get_element k.1 k.2) A.data ⟨[], A.rows, A.cols⟩ r c
      hinit hA
  have h2 : ((B.data.foldl
      (fun res p =>
        if dictContains A.data p.1 then res
        else res.set_element p.1.1 p.1.2 (-p.2))
      (A.data.foldl
        (fun res p => res.set_element p.1.1 p.1.2 (p.2 - B.get_element p.1.1 p.1.2))
        ⟨[], A.rows, A.cols⟩)) : SparseMatrix).get_element r c
      = if dictContains B.data (r, c) = true ∧ dictContains A.data (r, c) = false
        then -dictGet B.data (r, c)
        else ((A.data.foldl
          (fun res p => res.set_element p.1.1 p.1.2 (p.2 - B.get_element p.1.1 p.1.2))
          ⟨[], A.rows, A.cols⟩) : SparseMatrix).get_element r c :=
    get_foldl_set_skip (fun _ v => -v) (fun k => dictContains A.data k) B.data _ r c hm1 hB
  rw [h2, h1]
  by_cases hca : dictContains A.data (r, c) = true
  · rw [if_neg (by simp [hca]), if_pos hca]
    rfl
  · have hcaf : dictContains A.data (r, c) = false := by simpa using hca
    have hA0 : A.get_element r c = 0 := dictGet_of_not_contains A.data (r, c) hcaf
    by_cases hcb : dictContains B.data (r, c) = true
    · rw [if_pos ⟨hcb, hcaf⟩, hA0, zero_sub]
      rfl
    · have hcbf : dictContains B.data (r, c) = false := by simpa using hcb
      have hB0 : B.get_element r c = 0 := dictGet_of_not_contains B.data (r, c) hcbf
      rw [if_neg (by simp [hcbf]), if_neg hca, hA0, hB0]
      simp

theorem SparseMatrix.add_dims (A B C : SparseMatrix)
    (hr : A.rows = B.rows) (hc : A.cols = B.cols)
    (hok : A.add B = Except.ok C) : C.rows = A.rows ∧ C.cols = A.cols := by
  rw [SparseMatrix.add_eq_ok A B hr hc] at hok
  injection hok with hok
  subst hok
  have hstep2r : ∀ (res : SparseMatrix) (p : (Int × Int) × Int),
      ((if dictContains A.data p.1 then res
        else res.set_element p.1.1 p.1.2 p.2) : SparseMatrix).rows = res.rows := by
    intro res p
    by_cases hp : dictContains A.data p.1 <;>
      simp [hp, SparseMatrix.rows_set_element]
  have hstep2c : ∀ (res : SparseMatrix) (p : (Int × Int) × Int),
      ((if dictContains A.data p.1 then res
        else res.set_element p.1.1 p.1.2 p.2) : SparseMatrix).cols = res.cols := by
    intro res p
    by_cases hp : dictContains A.data p.1 <;>
      simp [hp, SparseMatrix.cols_set_element]
  constructor
  · rw [rows_foldl _ hstep2r,
      rows_foldl _ (fun (res : SparseMatrix) (p : (Int × Int) × Int) =>
        SparseMatrix.rows_set_element res p.1.1 p.1.2
          (p.2 + B.get_element p.1.1 p.1.2))]
  · rw [cols_foldl _ hstep2c,
      cols_foldl _ (fun (res : SparseMatrix) (p : (Int × Int) × Int) =>
        SparseMatrix.cols_set_element res p.1.1 p.1.2
          (p.2 + B.get_element p.1.1 p.1.2))]

/-! ### Claim theorems: element access and mutation -/

/-- C6: `get_element` is total — for every matrix and every integer
coordinate `(r, c)` that is not a key of the entry mapping (negative and
out-of-bounds coordinates included), `get_element r c` returns `0`.  In the
source, `get_element` only evaluates `self.data.get((row, col), 0)`: it can
raise no exception and, being a pure read, mutates nothing — the embedding
returns a plain integer accordingly. -/
theorem SparseMatrix.get_element_total (m : SparseMatrix) (r c : Int)
    (h : dictContains m.data (r, c) = false) : m.get_element r c = 0 :=
  dictGet_of_not_contains m.data (r, c) h

/-- C6 witness: a concrete 2×2 matrix, read at the negative, out-of-bounds
coordinate `(-3, 100)`. -/
theorem SparseMatrix.get_element_total_witness :
    dictContains (SparseMatrix.mk [((0, 0), 5)] 2 2).data (-3, 100) = false
    ∧ (SparseMatrix.mk [((0, 0), 5)] 2 2).get_element (-3) 100 = 0 :=
  ⟨by decide, SparseMatrix.get_element_total (SparseMatrix.mk [((0, 0), 5)] 2 2) (-3) 100
    (by decide)⟩

/-- C5: on any matrix (dict keys unique), `set_element r c v` with `v ≠ 0`
makes `get_element r c` return `v` and puts `(r, c)` into the entry mapping;
`set_element r c 0` removes `(r, c)` from the mapping whether or not it was
stored, so `get_element r c` returns `0` by absence. -/
theorem SparseMatrix.set_element_spec (m : SparseMatrix) (r c v : Int)
    (h : nodupKeys m.data) :
    (v ≠ 0 → (m.set_element r c v).get_element r c = v
      ∧ dictContains (m.set_element r c v).data (r, c) = true)
    ∧ (v = 0 → dictContains (m.set_element r c v).data (r, c) = false
      ∧ (m.set_element r c v).get_element r c = 0) := by
  constructor
  · intro hv
    refine ⟨?_, ?_⟩
    · rw [m.get_element_set_element r c v r c h, if_pos rfl]
    · unfold SparseMatrix.set_element
      rw [if_pos hv]
      exact dictContains_dictSet_self m.data (r, c) v
  · intro hv
    subst hv
    refine ⟨?_, ?_⟩
    · unfold SparseMatrix.set_element
      rw [if_neg (by simp)]
      by_cases hc2 : dictContains m.data (r, c) = true
      · rw [if_pos hc2]
        exact dictContains_dictDel_self m.data (r, c) h
      · rw [if_neg hc2]
        simpa using hc2
    · rw [m.get_element_set_element r c 0 r c h, if_pos rfl]

/-- C5 witness: a concrete matrix, once with the nonzero value `7` at the
fresh coordinate `(0, 1)` and once with `0` at the stored coordinate
`(0, 0)`. -/
theorem SparseMatrix.set_element_spec_witness :
    nodupKeys (SparseMatrix.mk [((0, 0), 5)] 2 2).data
    ∧ ((7 : Int) ≠ 0 →
        ((SparseMatrix.mk [((0, 0), 5)] 2 2).set_element 0 1 7).get_element 0 1 = 7
        ∧ dictContains ((SparseMatrix.mk [((0, 0), 5)] 2 2).set_element 0 1 7).data (0, 1)
          = true)
    ∧ ((0 : Int) = 0 →
        dictContains ((SparseMatrix.mk [((0, 0), 5)] 2 2).set_element 0 0 0).data (0, 0)
          = false
        ∧ ((SparseMatrix.mk [((0, 0), 5)] 2 2).set_element 0 0 0).get_element 0 0 = 0) :=
  ⟨by decide,
    (SparseMatrix.set_element_spec (SparseMatrix.mk [((0, 0), 5)] 2 2) 0 1 7 (by decide)).1,
    (SparseMatrix.set_element_spec (SparseMatrix.mk [((0, 0), 5)] 2 2) 0 0 0 (by decide)).2⟩

/-! ### Claim theorems: add and subtract -/

/-- C3: addition is commutative — for matrices with equal `rows` and equal
`cols` (dict keys unique on both sides), `A.add B` and `B.add A` both
succeed and yield matrices with the same dimensions and the same
`get_element` value at every integer coordinate. -/
theorem SparseMatrix.add_commutative (A B : SparseMatrix)
    (hA : nodupKeys A.data) (hB : nodupKeys B.data)
    (hr : A.rows = B.rows) (hc : A.cols = B.cols) :
    ∃ C C', A.add B = Except.ok C ∧ B.add A = Except.ok C'
      ∧ C.rows = C'.rows ∧ C.cols = C'.cols
      ∧ ∀ r c, C.get_element r c = C'.get_element r c := by
  obtain ⟨C, hC⟩ : ∃ C, A.add B = Except.ok C := ⟨_, SparseMatrix.add_eq_ok A B hr hc⟩
  obtain ⟨C', hC'⟩ : ∃ C', B.add A = Except.ok C' :=
    ⟨_, SparseMatrix.add_eq_ok B A hr.symm hc.symm⟩
  have hd := SparseMatrix.add_dims A B C hr hc hC
  have hd' := SparseMatrix.add_dims B A C' hr.symm hc.symm hC'
  refine ⟨C, C', hC, hC', ?_, ?_, ?_⟩
  · rw [hd.1, hd'.1, hr]
  · rw [hd.2, hd'.2, hc]
  · intro r c
    rw [SparseMatrix.get_element_add A B C hA hB hr hc hC r c,
      SparseMatrix.get_element_add B A C' hB hA hr.symm hc.symm hC' r c]
    exact Int.add_comm _ _

/-- C3 witness: the two concrete 2×2 matrices of the specification's
worked scenario. -/
theorem SparseMatrix.add_commutative_witness :
    nodupKeys (SparseMatrix.mk [((0, 0), 1), ((1, 1), 2)] 2 2).data
    ∧ nodupKeys (SparseMatrix.mk [((0, 0), 3), ((0, 1), 4)] 2 2).data
    ∧ (SparseMatrix.mk [((0, 0), 1), ((1, 1), 2)] 2 2).rows
        = (SparseMatrix.mk [((0, 0), 3), ((0, 1), 4)] 2 2).rows
    ∧ (SparseMatrix.mk [((0, 0), 1), ((1, 1), 2)] 2 2).cols
        = (SparseMatrix.mk [((0, 0), 3), ((0, 1), 4)] 2 2).cols
    ∧ ∃ C C',
        (SparseMatrix.mk [((0, 0), 1), ((1, 1), 2)] 2 2).add
          (SparseMatrix.mk [((0, 0), 3), ((0, 1), 4)] 2 2) = Except.ok C
        ∧ (SparseMatrix.mk [((0, 0), 3), ((0, 1), 4)] 2 2).add
          (SparseMatrix.mk [((0, 0), 1), ((1, 1), 2)] 2 2) = Except.ok C'
        ∧ C.rows = C'.rows ∧ C.cols = C'.cols
        ∧ ∀ r c, C.get_element r c = C'.get_element r c :=
  ⟨by decide, by decide, by decide, by decide,
    SparseMatrix.add_commutative
      (SparseMatrix.mk [((0, 0), 1), ((1, 1), 2)] 2 2)
      (SparseMatrix.mk [((0, 0), 3), ((0, 1), 4)] 2 2)
      (by decide) (by decide) (by decide) (by decide)⟩

/-- C4: when the row counts or the column counts differ, `add` and
`subtract` each raise the dimension-mismatch `ValueError` and return no
result matrix.  The Python methods perform this check before allocating or
touching anything — the only object either method ever mutates is its own
fresh `result`, so both operands are left exactly as they were (the
embedding's operations are pure functions on that account). -/
theorem SparseMatrix.add_subtract_dimension_mismatch (A B : SparseMatrix)
    (h : A.rows ≠ B.rows ∨ A.cols ≠ B.cols) :
    A.add B = Except.error (PyExc.valueError "Matrix dimensions must match for addition")
    ∧ (∀ C, A.add B ≠ Except.ok C)
    ∧ A.subtract B
      = Except.error (PyExc.valueError "Matrix dimensions must match for subtraction")
    ∧ (∀ C, A.subtract B ≠ Except.ok C) := by
  have h1 : A.add B
      = Except.error (PyExc.valueError "Matrix dimensions must match for addition") := by
    unfold SparseMatrix.add
    rw [if_pos h]
  have h2 : A.subtract B
      = Except.error (PyExc.valueError "Matrix dimensions must match for subtraction") := by
    unfold SparseMatrix.subtract
    rw [if_pos h]
  refine ⟨h1, fun C hC => ?_, h2, fun C hC => ?_⟩
  · rw [h1] at hC
    exact Except.noConfusion hC
  · rw [h2] at hC
    exact Except.noConfusion hC

/-- C4 witness: a 2×2 and a 3×3 matrix. -/
theorem SparseMatrix.add_subtract_dimension_mismatch_witness :
    ((SparseMatrix.mk [((0, 0), 1)] 2 2).rows ≠ (SparseMatrix.mk [] 3 3).rows
      ∨ (SparseMatrix.mk [((0, 0), 1)] 2 2).cols ≠ (SparseMatrix.mk [] 3 3).cols)
    ∧ ((SparseMatrix.mk [((0, 0), 1)] 2 2).add (SparseMatrix.mk [] 3 3)
        = Except.error (PyExc.valueError "Matrix dimensions must match for addition")
      ∧ (∀ C, (SparseMatrix.mk [((0, 0), 1)] 2 2).add (SparseMatrix.mk [] 3 3)
          ≠ Except.ok C)
      ∧ (SparseMatrix.mk [((0, 0), 1)] 2 2).subtract (SparseMatrix.mk [] 3 3)
        = Except.error (PyExc.valueError "Matrix dimensions must match for subtraction")
      ∧ (∀ C, (SparseMatrix.mk [((0, 0), 1)] 2 2).subtract (SparseMatrix.mk [] 3 3)
          ≠ Except.ok C)) :=
  ⟨by decide,
    SparseMatrix.add_subtract_dimension_mismatch
      (SparseMatrix.mk [((0, 0), 1)] 2 2) (SparseMatrix.mk [] 3 3) (by decide)⟩

/-! ### Claim theorems: construction from a serialized source -/

/-- C2: the parsing loop executes `data[(r, c)] = v` unconditionally, so a
zero-valued triple in the source IS stored in the entry mapping (the
source's own comment, "Store only nonzero values", notwithstanding): parsing
`rows=2 / cols=3 / (1,2,0)` yields a matrix whose dict contains the
coordinate `(1, 2)` with the stored value `0` — the sparsity invariant is
violated, and `get_element (1, 2)` returns a stored zero, not zero via
absence. -/
theorem load_stores_zero_triple :
    fromFile ["rows=2", "cols=3", "(1,2,0)"]
      = Except.ok (SparseMatrix.mk [((1, 2), 0)] 2 3)
    ∧ dictContains (SparseMatrix.mk [((1, 2), 0)] 2 3).data (1, 2) = true
    ∧ dictGet (SparseMatrix.mk [((1, 2), 0)] 2 3).data (1, 2) = 0 :=
  ⟨rfl, rfl, rfl⟩

/-- C7: because zero-valued triples are stored (see `load_stores_zero_triple`),
`display` does not emit exactly the nonzero triples of the source: parsing
`rows=1 / cols=1 / (0,0,0)` — whose set of NONZERO triples is empty — and
then displaying prints the line `(0, 0, 0)`, a nonempty output. -/
theorem display_prints_zero_triple :
    (fromFile ["rows=1", "cols=1", "(0,0,0)"]).map SparseMatrix.display
      = Except.ok ["(0, 0, 0)"]
    ∧ (["(0, 0, 0)"] : List String) ≠ [] :=
  ⟨rfl, by decide⟩

/-- C9: each malformed source raises the wrapped `ValueError` (the `FormatError`
of the specification) and construction produces no matrix value at all:
(a) a source with only one declaration line; (b) a triple missing its
closing parenthesis; (c) a triple with the non-integer value token `x`. -/
theorem load_malformed_sources_raise :
    (∃ msg, fromFile ["rows=3"] = Except.error (PyExc.valueError msg))
    ∧ (∃ msg, fromFile ["rows=2", "cols=2", "(1,2,3"]
        = Except.error (PyExc.valueError msg))
    ∧ (∃ msg, fromFile ["rows=2", "cols=2", "(1,2,x)"]
        = Except.error (PyExc.valueError msg)) :=
  ⟨⟨_, rfl⟩, ⟨_, rfl⟩, ⟨_, rfl⟩⟩

/-- C8 counterexample: the parser never compares the key text of the first
two lines against the literals `rows` / `cols` — it only splits on `=` and
converts the second fragment — so the source `ROWS=3 / cols=2` is accepted
and constructs an empty 3×2 matrix instead of failing with a `FormatError`. -/
theorem load_accepts_uppercase_rows_key :
    fromFile ["ROWS=3", "cols=2"] = Except.ok (SparseMatrix.mk [] 3 2)
    ∧ ∀ e, fromFile ["ROWS=3", "cols=2"] ≠ Except.error e := by
  refine ⟨rfl, fun e h => ?_⟩
  rw [show fromFile ["ROWS=3", "cols=2"] = Except.ok (SparseMatrix.mk [] 3 2) from rfl] at h
  exact Except.noConfusion h

/-! ### Claim theorem: a single error kind for every failure -/

/-- C10: every failure of the public operations is a `ValueError`: whatever
escapes `load_from_file` is re-raised as `ValueError(...)` by its handler,
and the dimension checks of `add`, `subtract` and `multiply` are the only
raise sites of those methods, each an explicit `raise ValueError(...)`.
The error values differ only in their message text, so a caller cannot
dispatch on a `FormatError`-versus-`DimensionMismatchError` distinction by
exception type. -/
theorem errors_single_kind :
    (∀ lines e, load_from_file lines = Except.error e → ∃ msg, e = PyExc.valueError msg)
    ∧ (∀ A B : SparseMatrix, ∀ e, A.add B = Except.error e
        → ∃ msg, e = PyExc.valueError msg)
    ∧ (∀ A B : SparseMatrix, ∀ e, A.subtract B = Except.error e
        → ∃ msg, e = PyExc.valueError msg)
    ∧ (∀ A B : SparseMatrix, ∀ e, A.multiply B = Except.error e
        → ∃ msg, e = PyExc.valueError msg) := by
  refine ⟨?_, ?_, ?_, ?_⟩
  · intro lines e h
    unfold load_from_file at h
    cases hbody : loadBody lines with
    | ok x =>
      rw [hbody] at h
      exact Except.noConfusion h
    | error e' =>
      rw [hbody] at h
      injection h with h
      exact ⟨_, h.symm⟩
  · intro A B e h
    unfold SparseMatrix.add at h
    by_cases hcond : A.rows ≠ B.rows ∨ A.cols ≠ B.cols
    · rw [if_pos hcond] at h
      injection h with h
      exact ⟨_, h.symm⟩
    · rw [if_neg hcond] at h
      exact Except.noConfusion h
  · intro A B e h
    unfold SparseMatrix.subtract at h
    by_cases hcond : A.rows ≠ B.rows ∨ A.cols ≠ B.cols
    · rw [if_pos hcond] at h
      injection h with h
      exact ⟨_, h.symm⟩
    · rw [if_neg hcond] at h
      exact Except.noConfusion h
  · intro A B e h
    unfold SparseMatrix.multiply at h
    by_cases hcond : A.cols ≠ B.rows
    · rw [if_pos hcond] at h
      injection h with h
      exact ⟨_, h.symm⟩
    · rw [if_neg hcond] at h
      exact Except.noConfusion h

/-- C10 witness: each of the four branches applied at a concrete failing
input — an empty source for the loader, and dimension-mismatched operand
pairs for the three arithmetic methods. -/
theorem errors_single_kind_witness :
    (∃ msg, PyExc.valueError "Error reading file: list index out of range"
      = PyExc.valueError msg)
    ∧ (∃ msg, PyExc.valueError "Matrix dimensions must match for addition"
      = PyExc.valueError msg)
    ∧ (∃ msg, PyExc.valueError "Matrix dimensions must match for subtraction"
      = PyExc.valueError msg)
    ∧ (∃ msg, PyExc.valueError "Matrix dimensions must be compatible for multiplication"
      = PyExc.valueError msg) :=
  ⟨errors_single_kind.1 [] _ rfl,
    errors_single_kind.2.1 (SparseMatrix.mk [] 1 1) (SparseMatrix.mk [] 2 2) _ rfl,
    errors_single_kind.2.2.1 (SparseMatrix.mk [] 1 1) (SparseMatrix.mk [] 2 2) _ rfl,
    errors_single_kind.2.2.2 (SparseMatrix.mk [] 1 1) (SparseMatrix.mk [] 2 2) _ rfl⟩

/-! ### C8: the key text of the dimension lines is ignored -/

theorem dropWhile_eq_self_of_all_false (p : Char → Bool) (l : List Char)
    (h : ∀ ch ∈ l, p ch = false) : l.dropWhile p = l := by
  cases l with
  | nil => rfl
  | cons a t =>
    have ha : p a = false := h a (List.mem_cons_self a t)
    simp [List.dropWhile_cons, ha]

theorem pyStrip_of_no_space (l : List Char)
    (h : ∀ ch ∈ l, isSpaceChar ch = false) : pyStrip l = l := by
  unfold pyStrip
  rw [dropWhile_eq_self_of_all_false isSpaceChar l h,
    dropWhile_eq_self_of_all_false isSpaceChar l.reverse
      (fun ch hch => h ch (List.mem_reverse.mp hch))]
  exact List.reverse_reverse l

theorem pySplit_ne_nil (sep : Char) (l : List Char) : pySplit sep l ≠ [] := by
  cases l with
  | nil => simp [pySplit]
  | cons a t =>
    unfold pySplit
    cases hps : pySplit sep t with
    | nil => simp
    | cons g gs => by_cases h : a = sep <;> simp [h]

theorem pySplit_append (sep : Char) (k d : List Char) (h : sep ∉ k) :
    pySplit sep (k ++ sep :: d) = k :: pySplit sep d := by
  induction k with
  | nil =>
    simp only [List.nil_append]
    cases hps : pySplit sep d with
    | nil => exact absurd hps (pySplit_ne_nil sep d)
    | cons g gs =>
      rw [show pySplit sep (sep :: d)
          = (match pySplit sep d with
            | [] => [[]]
            | g :: gs => if sep = sep then [] :: g :: gs else (sep :: g) :: gs) from rfl,
        hps]
      simp
  | cons a k' ih =>
    have ha : a ≠ sep := fun hh => h (hh ▸ List.mem_cons_self a k')
    have h' : sep ∉ k' := fun hh => h (List.mem_cons_of_mem a hh)
    simp only [List.cons_append]
    rw [show pySplit sep (a :: (k' ++ sep :: d))
        = (match pySplit sep (k' ++ sep :: d) with
          | [] => [[]]
          | g :: gs => if a = sep then [] :: g :: gs else (a :: g) :: gs) from rfl,
      ih h']
    simp [ha]

theorem pySplit_singleton (sep : Char) (dch : Char) (h : dch ≠ sep) :
    pySplit sep [dch] = [[dch]] := by
  unfold pySplit
  simp [pySplit, h]

/-- Splitting a dimension line built from an arbitrary key text (free of `=`
and whitespace) followed by `=` and one further character: the fragments are
the key and the character, whatever the key says. -/
theorem pySplit_dimension_line (k : List Char) (dch : Char)
    (hk : ∀ ch ∈ k, ch ≠ '=' ∧ isSpaceChar ch = false)
    (hd1 : dch ≠ '=') (hd2 : isSpaceChar dch = false) :
    pySplit '=' (pyStrip (k ++ ['=', dch])) = [k, [dch]] := by
  have hns : ∀ ch ∈ k ++ ['=', dch], isSpaceChar ch = false := by
    intro ch hch
    rcases List.mem_append.mp hch with hm | hm
    · exact (hk ch hm).2
    · rcases List.mem_cons.mp hm with hm1 | hm1
      · subst hm1
        decide
      · rcases List.mem_cons.mp hm1 with hm2 | hm2
        · subst hm2
          exact hd2
        · exact absurd hm2 (List.not_mem_nil ch)
  rw [pyStrip_of_no_space _ hns,
    show k ++ ['=', dch] = k ++ '=' :: [dch] from rfl,
    pySplit_append '=' k [dch] (fun hmem => (hk '=' hmem).1 rfl),
    pySplit_singleton '=' dch hd1]

/-- C8 amended: construction does not require (or inspect) the literal keys
`rows=` / `cols=` — each of the first two lines is split on `=` and only the
fragment after the first `=` is converted to an integer, so ANY key text
free of `=` and whitespace is accepted: `<key1>=3` and `<key2>=2` always
construct an empty 3×2 matrix, whatever the key texts say. -/
theorem load_ignores_dimension_key_text (k1 k2 : List Char)
    (h1 : ∀ ch ∈ k1, ch ≠ '=' ∧ isSpaceChar ch = false)
    (h2 : ∀ ch ∈ k2, ch ≠ '=' ∧ isSpaceChar ch = false) :
    fromFile [String.mk (k1 ++ ['=', '3']), String.mk (k2 ++ ['=', '2'])]
      = Except.ok (SparseMatrix.mk [] 3 2) := by
  have hs1 := pySplit_dimension_line k1 '3' h1 (by decide) (by decide)
  have hs2 := pySplit_dimension_line k2 '2' h2 (by decide) (by decide)
  have hp1 : parseDimLine [String.mk (k1 ++ ['=', '3']), String.mk (k2 ++ ['=', '2'])] 0
      = Except.ok 3 := by
    show (match (pySplit '=' (pyStrip (k1 ++ ['=', '3'])))[1]? with
        | some seg => parseInt seg
        | none => (Except.error (PyExc.indexError "list index out of range") : Except PyExc Int))
      = Except.ok 3
    rw [hs1]
    rfl
  have hp2 : parseDimLine [String.mk (k1 ++ ['=', '3']), String.mk (k2 ++ ['=', '2'])] 1
      = Except.ok 2 := by
    show (match (pySplit '=' (pyStrip (k2 ++ ['=', '2'])))[1]? with
        | some seg => parseInt seg
        | none => (Except.error (PyExc.indexError "list index out of range") : Except PyExc Int))
      = Except.ok 2
    rw [hs2]
    rfl
  have hload : loadBody [String.mk (k1 ++ ['=', '3']), String.mk (k2 ++ ['=', '2'])]
      = Except.ok ([], 3, 2) := by
    unfold loadBody
    rw [hp1, hp2]
    rfl
  unfold fromFile load_from_file
  rw [hload]
  rfl

/-- C8 amended witness: the key texts `ROWS` and `foo` are both accepted. -/
theorem load_ignores_dimension_key_text_witness :
    (∀ ch ∈ ("ROWS".data), ch ≠ '=' ∧ isSpaceChar ch = false)
    ∧ (∀ ch ∈ ("foo".data), ch ≠ '=' ∧ isSpaceChar ch = false)
    ∧ fromFile [String.mk ("ROWS".data ++ ['=', '3']), String.mk ("foo".data ++ ['=', '2'])]
      = Except.ok (SparseMatrix.mk [] 3 2) :=
  ⟨by decide, by decide,
    load_ignores_dimension_key_text "ROWS".data "foo".data (by decide) (by decide)⟩

/-! ### C1: multiplication -/

theorem mem_intRange (n c : Int) : c ∈ intRange n ↔ 0 ≤ c ∧ c < n := by
  unfold intRange
  simp only [List.mem_map, List.mem_range, Int.ofNat_eq_natCast]
  constructor
  · rintro ⟨k, hk, rfl⟩
    omega
  · rintro ⟨h0, hn⟩
    exact ⟨c.toNat, by omega, by omega⟩

theorem intRange_nodup (n : Int) : (intRange n).Nodup :=
  (List.nodup_range n.toNat).map (fun _ _ h => Int.ofNat.inj h)

theorem sum_map_eq_of_mem {α : Type} (L : List α) (f g : α → Int)
    (h : ∀ x ∈ L, f x = g x) : (L.map f).sum = (L.map g).sum := by
  induction L with
  | nil => rfl
  | cons a t ih =>
    simp only [List.map_cons, List.sum_cons]
    rw [h a (List.mem_cons_self a t), ih (fun x hx => h x (List.mem_cons_of_mem a hx))]

theorem sum_map_add_split {α : Type} (L : List α) (f g : α → Int) :
    (L.map (fun x => f x + g x)).sum = (L.map f).sum + (L.map g).sum := by
  induction L with
  | nil => rfl
  | cons a t ih =>
    simp only [List.map_cons, List.sum_cons, ih]
    ring

theorem sum_map_single (L : List Int) (hL : L.Nodup) (x0 d : Int) :
    (L.map (fun x => if x = x0 then d else 0)).sum = if x0 ∈ L then d else 0 := by
  induction L with
  | nil => simp
  | cons a t ih =>
    rw [List.nodup_cons] at hL
    simp only [List.map_cons, List.sum_cons]
    by_cases ha : a = x0
    · subst ha
      rw [if_pos rfl, ih hL.2, if_neg hL.1, if_pos (List.mem_cons_self a t), add_zero]
    · rw [if_neg ha, ih hL.2, zero_add]
      by_cases hx : x0 ∈ t
      · rw [if_pos hx, if_pos (List.mem_cons_of_mem a hx)]
      · rw [if_neg hx, if_neg (by
          intro hmem
          rcases List.mem_cons.mp hmem with hm | hm
          · exact ha hm.symm
          · exact hx hm)]

/-- Effect of the inner column loop of `multiply` for one stored entry
`(r1, c1) ↦ v1` of the left operand: at any coordinate `(r, c)`, the loop
adds `v1 * B.get_element c1 c` exactly when `r = r1` and `c` is one of the
scanned columns, and changes nothing else.  Skipping a zero `v2` and adding
`v1 * v2 = 0` agree, which the proof exploits. -/
theorem get_multiply_inner (B : SparseMatrix) (r1 c1 v1 : Int) (L : List Int)
    (res : SparseMatrix) (r c : Int) (hres : nodupKeys res.data) (hL : L.Nodup) :
    (L.foldl (fun res c2 =>
        let v2 := B.get_element c1 c2
        if v2 ≠ 0 then res.set_element r1 c2 (res.get_element r1 c2 + v1 * v2) else res)
      res).get_element r c
    = res.get_element r c + (if r = r1 ∧ c ∈ L then v1 * B.get_element c1 c else 0) := by
  induction L generalizing res with
  | nil => simp
  | cons c0 t ih =>
    rw [List.nodup_cons] at hL
    obtain ⟨hc0t, ht⟩ := hL
    simp only [List.foldl_cons]
    have hstep : ((fun res c2 =>
        let v2 := B.get_element c1 c2
        if v2 ≠ 0 then res.set_element r1 c2 (res.get_element r1 c2 + v1 * v2) else res)
          res c0).get_element r c
        = res.get_element r c + (if r = r1 ∧ c = c0 then v1 * B.get_element c1 c else 0) := by
      show ((if B.get_element c1 c0 ≠ 0 then
          res.set_element r1 c0 (res.get_element r1 c0 + v1 * B.get_element c1 c0)
          else res) : SparseMatrix).get_element r c = _
      by_cases hv : B.get_element c1 c0 = 0
      · rw [if_neg (by simp [hv])]
        by_cases hrc : r = r1 ∧ c = c0
        · rw [if_pos hrc, hrc.2, hv, mul_zero, add_zero]
        · rw [if_neg hrc, add_zero]
      · rw [if_pos hv, res.get_element_set_element r1 c0 _ r c hres]
        by_cases hrc : r = r1 ∧ c = c0
        · rw [if_pos (by simp [Prod.mk.injEq, hrc.1, hrc.2]), if_pos hrc, hrc.1, hrc.2]
        · rw [if_neg (by simp only [Prod.mk.injEq]; exact hrc), if_neg hrc, add_zero]
    have hstepnodup : nodupKeys (((fun res c2 =>
        let v2 := B.get_element c1 c2
        if v2 ≠ 0 then res.set_element r1 c2 (res.get_element r1 c2 + v1 * v2) else res)
          res c0)).data := by
      show nodupKeys ((if B.get_element c1 c0 ≠ 0 then
          res.set_element r1 c0 (res.get_element r1 c0 + v1 * B.get_element c1 c0)
          else res) : SparseMatrix).data
      by_cases hv : B.get_element c1 c0 = 0
      · rw [if_neg (by simp [hv])]
        exact hres
      · rw [if_pos hv]
        exact res.nodupKeys_set_element r1 c0 _ hres
    rw [ih _ hstepnodup ht, hstep]
    by_cases hr : r = r1
    · by_cases hc0 : c = c0
      · simp [hr, hc0]
        intro hmem
        exact absurd hmem hc0t
      · simp only [List.mem_cons]
        simp [hr, hc0]
    · simp [hr]

/-- Effect of the full accumulation loop of `multiply`: starting from `res`,
each stored entry of the left operand's dict contributes
`v1 * B.get_element c1 c` to every coordinate `(r1, c)` with `c` in the
scanned column range. -/
theorem get_multiply_outer (B : SparseMatrix) (l : Dict) (res : SparseMatrix) (r c : Int)
    (hres : nodupKeys res.data) :
    ((l.foldl (fun res p =>
        (intRange B.cols).foldl
          (fun res c2 =>
            let v2 := B.get_element p.1.2 c2
            if v2 ≠ 0 then res.set_element p.1.1 c2 (res.get_element p.1.1 c2 + p.2 * v2)
            else res) res) res)).get_element r c
    = res.get_element r c
      + (l.map (fun p => if r = p.1.1 ∧ c ∈ intRange B.cols
          then p.2 * B.get_element p.1.2 c else 0)).sum := by
  induction l generalizing res with
  | nil => simp
  | cons p t ih =>
    simp only [List.foldl_cons, List.map_cons, List.sum_cons]
    have hinner := get_multiply_inner B p.1.1 p.1.2 p.2 (intRange B.cols) res r c hres
      (intRange_nodup B.cols)
    have hinnernodup : nodupKeys (((intRange B.cols).foldl
        (fun res c2 =>
          let v2 := B.get_element p.1.2 c2
          if v2 ≠ 0 then res.set_element p.1.1 c2 (res.get_element p.1.1 c2 + p.2 * v2)
          else res) res)).data := by
      refine nodupKeys_foldl _ (fun res2 c2 hres2 => ?_) _ _ hres
      show nodupKeys ((if B.get_element p.1.2 c2 ≠ 0 then
          res2.set_element p.1.1 c2 (res2.get_element p.1.1 c2 + p.2 * B.get_element p.1.2 c2)
          else res2) : SparseMatrix).data
      by_cases hv : B.get_element p.1.2 c2 = 0
      · rw [if_neg (by simp [hv])]
        exact hres2
      · rw [if_pos hv]
        exact res2.nodupKeys_set_element p.1.1 c2 _ hres2
    rw [ih _ hinnernodup, hinner]
    ring

theorem sum_map_zero {α : Type} (L : List α) : (L.map (fun _ => (0 : Int))).sum = 0 := by
  induction L with
  | nil => rfl
  | cons a t ih => simp [ih]

/-- Bridging lemma: under the dict unique-key invariant and with every stored
column index of `l` inside `[0, n)`, the per-entry contributions to row `r`
and column `c` sum to the dot product over `k ∈ [0, n)` of the looked-up row
values against `B`'s column. -/
theorem dot_of_row_entries (B : SparseMatrix) (l : Dict) (r c n : Int)
    (hl : nodupKeys l) (hbound : ∀ p ∈ l, 0 ≤ p.1.2 ∧ p.1.2 < n) :
    (l.map (fun p => if r = p.1.1 then p.2 * B.get_element p.1.2 c else 0)).sum
    = ((intRange n).map (fun k => dictGet l (r, k) * B.get_element k c)).sum := by
  induction l with
  | nil =>
    simp only [List.map_nil, List.sum_nil]
    rw [sum_map_eq_of_mem (intRange n)
        (fun k => dictGet [] (r, k) * B.get_element k c) (fun _ => (0 : Int))
        (fun k hk => by
          show (0 : Int) * B.get_element k c = 0
          rw [zero_mul]),
      sum_map_zero]
  | cons p t ih =>
    obtain ⟨pk, pv⟩ := p
    simp only [nodupKeys, List.map_cons, List.nodup_cons] at hl
    obtain ⟨hpk, hlt⟩ := hl
    have hb := hbound (pk, pv) (List.mem_cons_self _ t)
    have hbt : ∀ q ∈ t, 0 ≤ q.1.2 ∧ q.1.2 < n :=
      fun q hq => hbound q (List.mem_cons_of_mem _ hq)
    simp only [List.map_cons, List.sum_cons]
    by_cases hr1 : r = pk.1
    · have hz : dictGet t (r, pk.2) = 0 := by
        apply dictGet_of_not_contains
        cases hcc : dictContains t (r, pk.2)
        · rfl
        · exfalso
          apply hpk
          have hmem := (dictContains_iff t (r, pk.2)).mp hcc
          rw [show pk = (r, pk.2) from by rw [hr1]]
          exact hmem
      have hpoint : ∀ k ∈ intRange n,
          dictGet ((pk, pv) :: t) (r, k) * B.get_element k c
          = dictGet t (r, k) * B.get_element k c
            + (if k = pk.2 then pv * B.get_element pk.2 c else 0) := by
        intro k hk
        by_cases hkp : k = pk.2
        · subst hkp
          rw [if_pos rfl]
          have h1 : dictGet ((pk, pv) :: t) (r, pk.2) = pv := by
            show (if pk = (r, pk.2) then pv else dictGet t (r, pk.2)) = pv
            rw [if_pos (by rw [hr1])]
          rw [h1, hz, zero_mul, zero_add]
        · rw [if_neg hkp, add_zero]
          show (if pk = (r, k) then pv else dictGet t (r, k)) * B.get_element k c
            = dictGet t (r, k) * B.get_element k c
          rw [if_neg (fun hh => hkp ((congrArg Prod.snd hh).symm))]
      have hsplit := sum_map_add_split (intRange n)
        (fun k => dictGet t (r, k) * B.get_element k c)
        (fun k => if k = pk.2 then pv * B.get_element pk.2 c else 0)
      rw [if_pos hr1, ih hlt hbt,
        sum_map_eq_of_mem (intRange n)
          (fun k => dictGet ((pk, pv) :: t) (r, k) * B.get_element k c)
          (fun k => dictGet t (r, k) * B.get_element k c
            + (if k = pk.2 then pv * B.get_element pk.2 c else 0)) hpoint,
        hsplit,
        sum_map_single (intRange n) (intRange_nodup n) pk.2 (pv * B.get_element pk.2 c),
        if_pos ((mem_intRange n pk.2).mpr hb)]
      ring
    · have hpoint : ∀ k ∈ intRange n,
          dictGet ((pk, pv) :: t) (r, k) * B.get_element k c
          = dictGet t (r, k) * B.get_element k c := by
        intro k hk
        show (if pk = (r, k) then pv else dictGet t (r, k)) * B.get_element k c
          = dictGet t (r, k) * B.get_element k c
        rw [if_neg (fun hh => hr1 ((congrArg Prod.fst hh).symm))]
      rw [if_neg hr1, zero_add, ih hlt hbt,
        sum_map_eq_of_mem (intRange n)
          (fun k => dictGet ((pk, pv) :: t) (r, k) * B.get_element k c)
          (fun k => dictGet t (r, k) * B.get_element k c) hpoint]

theorem SparseMatrix.multiply_eq_ok (A B : SparseMatrix) (hdim : A.cols = B.rows) :
    A.multiply B = Except.ok (A.data.foldl
      (fun res p =>
        (intRange B.cols).foldl
          (fun res c2 =>
            let v2 := B.get_element p.1.2 c2
            if v2 ≠ 0 then res.set_element p.1.1 c2 (res.get_element p.1.1 c2 + p.2 * v2)
            else res) res)
      ⟨[], A.rows, B.cols⟩) := by
  unfold SparseMatrix.multiply
  rw [if_neg (fun hne => hne hdim)]

theorem SparseMatrix.multiply_dims (A B C : SparseMatrix) (hdim : A.cols = B.rows)
    (hok : A.multiply B = Except.ok C) : C.rows = A.rows ∧ C.cols = B.cols := by
  rw [SparseMatrix.multiply_eq_ok A B hdim] at hok
  injection hok with hok
  subst hok
  have hstepr : ∀ (res : SparseMatrix) (p : (Int × Int) × Int),
      (((intRange B.cols).foldl
        (fun res c2 =>
          let v2 := B.get_element p.1.2 c2
          if v2 ≠ 0 then res.set_element p.1.1 c2 (res.get_element p.1.1 c2 + p.2 * v2)
          else res) res)).rows = res.rows := by
    intro res p
    refine rows_foldl _ (fun res2 c2 => ?_) _ _
    show ((if B.get_element p.1.2 c2 ≠ 0 then
        res2.set_element p.1.1 c2 (res2.get_element p.1.1 c2 + p.2 * B.get_element p.1.2 c2)
        else res2) : SparseMatrix).rows = res2.rows
    by_cases hv : B.get_element p.1.2 c2 = 0
    · rw [if_neg (by simp [hv])]
    · rw [if_pos hv]
      exact SparseMatrix.rows_set_element res2 p.1.1 c2 _
  have hstepc : ∀ (res : SparseMatrix) (p : (Int × Int) × Int),
      (((intRange B.cols).foldl
        (fun res c2 =>
          let v2 := B.get_element p.1.2 c2
          if v2 ≠ 0 then res.set_element p.1.1 c2 (res.get_element p.1.1 c2 + p.2 * v2)
          else res) res)).cols = res.cols := by
    intro res p
    refine cols_foldl _ (fun res2 c2 => ?_) _ _
    show ((if B.get_element p.1.2 c2 ≠ 0 then
        res2.set_element p.1.1 c2 (res2.get_element p.1.1 c2 + p.2 * B.get_element p.1.2 c2)
        else res2) : SparseMatrix).cols = res2.cols
    by_cases hv : B.get_element p.1.2 c2 = 0
    · rw [if_neg (by simp [hv])]
    · rw [if_pos hv]
      exact SparseMatrix.cols_set_element res2 p.1.1 c2 _
  exact ⟨rows_foldl _ hstepr A.data _, cols_foldl _ hstepc A.data _⟩

/-- C1: for matrices `A` (with the dict unique-key invariant, and every
stored column index inside `[0, A.cols)` — that is, `A` really is an
`m × n` matrix in the sense of the data model's bounds invariant), when the
inner dimensions match, `multiply` returns a new matrix of dimensions
`A.rows × B.cols` whose value at every in-range coordinate `(r, c)` is the
dot product over `k ∈ [0, A.cols)` of `A.get_element r k * B.get_element k c`;
when the inner dimensions differ, `multiply` raises the dimension-mismatch
`ValueError` and yields no result.  (Only the left operand's column bounds
are needed: the loop reads `B` exclusively at the stored column indices of
`A` and at the scanned output columns, so out-of-range entries of `B` can
never influence an in-range output cell.) -/
theorem SparseMatrix.multiply_spec (A B : SparseMatrix)
    (hA : nodupKeys A.data)
    (hbound : ∀ p ∈ A.data, 0 ≤ p.1.2 ∧ p.1.2 < A.cols) :
    (A.cols = B.rows →
      ∃ C, A.multiply B = Except.ok C ∧ C.rows = A.rows ∧ C.cols = B.cols
        ∧ ∀ r c, 0 ≤ r → r < A.rows → 0 ≤ c → c < B.cols →
          C.get_element r c
            = ((intRange A.cols).map
                (fun k => A.get_element r k * B.get_element k c)).sum)
    ∧ (A.cols ≠ B.rows →
      A.multiply B = Except.error
        (PyExc.valueError "Matrix dimensions must be compatible for multiplication")) := by
  constructor
  · intro hdim
    refine ⟨_, SparseMatrix.multiply_eq_ok A B hdim, ?_, ?_, ?_⟩
    · exact (SparseMatrix.multiply_dims A B _ hdim (SparseMatrix.multiply_eq_ok A B hdim)).1
    · exact (SparseMatrix.multiply_dims A B _ hdim (SparseMatrix.multiply_eq_ok A B hdim)).2
    · intro r c hr0 hrm hc0 hcp
      have hgo := get_multiply_outer B A.data ⟨[], A.rows, B.cols⟩ r c List.nodup_nil
      rw [hgo]
      have hcmem : c ∈ intRange B.cols := (mem_intRange B.cols c).mpr ⟨hc0, hcp⟩
      have hcongr : ∀ p ∈ A.data,
          (if r = p.1.1 ∧ c ∈ intRange B.cols then p.2 * B.get_element p.1.2 c else 0)
          = (if r = p.1.1 then p.2 * B.get_element p.1.2 c else 0) := by
        intro p hp
        by_cases hrp : r = p.1.1
        · rw [if_pos ⟨hrp, hcmem⟩, if_pos hrp]
        · rw [if_neg (fun hh => hrp hh.1), if_neg hrp]
      rw [sum_map_eq_of_mem A.data _ _ hcongr,
        dot_of_row_entries B A.data r c A.cols hA hbound]
      show (0 : Int) + _ = _
      rw [zero_add]
      rfl
  · intro hdim
    unfold SparseMatrix.multiply
    rw [if_pos hdim]

/-- C1 witness: the specification's worked 2×2 scenario. -/
theorem SparseMatrix.multiply_spec_witness :
    nodupKeys (SparseMatrix.mk [((0, 0), 1), ((1, 1), 2)] 2 2).data
    ∧ (∀ p ∈ (SparseMatrix.mk [((0, 0), 1), ((1, 1), 2)] 2 2).data,
        0 ≤ p.1.2 ∧ p.1.2 < (SparseMatrix.mk [((0, 0), 1), ((1, 1), 2)] 2 2).cols)
    ∧ (((SparseMatrix.mk [((0, 0), 1), ((1, 1), 2)] 2 2).cols
          = (SparseMatrix.mk [((0, 0), 3), ((0, 1), 4)] 2 2).rows →
        ∃ C, (SparseMatrix.mk [((0, 0), 1), ((1, 1), 2)] 2 2).multiply
            (SparseMatrix.mk [((0, 0), 3), ((0, 1), 4)] 2 2) = Except.ok C
          ∧ C.rows = (SparseMatrix.mk [((0, 0), 1), ((1, 1), 2)] 2 2).rows
          ∧ C.cols = (SparseMatrix.mk [((0, 0), 3), ((0, 1), 4)] 2 2).cols
          ∧ ∀ r c, 0 ≤ r → r < (SparseMatrix.mk [((0, 0), 1), ((1, 1), 2)] 2 2).rows
              → 0 ≤ c → c < (SparseMatrix.mk [((0, 0), 3), ((0, 1), 4)] 2 2).cols →
            C.get_element r c
              = ((intRange (SparseMatrix.mk [((0, 0), 1), ((1, 1), 2)] 2 2).cols).map
                  (fun k => (SparseMatrix.mk [((0, 0), 1), ((1, 1), 2)] 2 2).get_element r k
                    * (SparseMatrix.mk [((0, 0), 3), ((0, 1), 4)] 2 2).get_element k c)).sum)
      ∧ ((SparseMatrix.mk [((0, 0), 1), ((1, 1), 2)] 2 2).cols
          ≠ (SparseMatrix.mk [((0, 0), 3), ((0, 1), 4)] 2 2).rows →
        (SparseMatrix.mk [((0, 0), 1), ((1, 1), 2)] 2 2).multiply
            (SparseMatrix.mk [((0, 0), 3), ((0, 1), 4)] 2 2)
          = Except.error
            (PyExc.valueError "Matrix dimensions must be compatible for multiplication"))) :=
  ⟨by decide, by decide,
    SparseMatrix.multiply_spec
      (SparseMatrix.mk [((0, 0), 1), ((1, 1), 2)] 2 2)
      (SparseMatrix.mk [((0, 0), 3), ((0, 1), 4)] 2 2)
      (by decide) (by decide)⟩
